import Mathlib

/-!
Shallow embedding of the AnkiStreakFixer core (src/main.rs, src/date.rs):
calendar utilities, the date-range validator, the rollover-window calculator,
the deck resolver, the review selector and the timestamp shifter, together
with theorems settling the frozen claims about them.

Modelling conventions:
* Rust `i64` values are modelled as `Int`; where the source can overflow
  (release-mode wrapping multiplication in `calculate_id_offset`) the wrap
  at 2^64 is made explicit through `wrap64`.
* `chrono::NaiveDate` is modelled as a year/month/day record; subtraction of
  dates (`(to - from).num_days()`) is modelled through the standard civil
  day-number function `daysFromCivil`.
* `chrono::Local` is modelled as a fixed offset east of UTC, passed
  explicitly as `tzOffsetSec`.
* The SQLite store is a record of lists mirroring the tables the program
  touches (`decks`, `notes`, `cards`, `revlog`, `config.rollover`, `col.scm`).
  SQL queries are translated join-for-join into list filters; SQLite `/` is
  truncating division (`Int.tdiv`), and `BETWEEN` is inclusive on both ends.
-/

/-- Model of `chrono::NaiveDate`: a calendar date as year, month, day. -/
structure NaiveDate where
  year : Int
  month : Int
  day : Int
deriving DecidableEq, Repr

/-- Gregorian leap-year test. -/
def isLeapYear (y : Int) : Bool :=
  (Int.emod y 4 == 0 && Int.emod y 100 != 0) || Int.emod y 400 == 0

/-- Number of days in a month of a given year. -/
def daysInMonth (y m : Int) : Int :=
  if m == 2 then (if isLeapYear y then 29 else 28)
  else if m == 4 || m == 6 || m == 9 || m == 11 then 30
  else 31

/-- A calendar date that `chrono` would accept: month and day in range. -/
def validDate (d : NaiveDate) : Bool :=
  1 ≤ d.month && d.month ≤ 12 && 1 ≤ d.day && d.day ≤ daysInMonth d.year d.month

/-- Days since 1970-01-01 of a civil date (the standard days-from-civil
algorithm, floor division for the era so negative years work).  `chrono`'s
subtraction of two `NaiveDate`s in whole days equals the difference of the
two day numbers. -/
def daysFromCivil (y m d : Int) : Int :=
  let y1 := if m ≤ 2 then y - 1 else y
  let era := Int.fdiv y1 400
  let yoe := y1 - era * 400
  let mp := if m > 2 then m - 3 else m + 9
  let doy := Int.fdiv (153 * mp + 2) 5 + d - 1
  let doe := yoe * 365 + Int.fdiv yoe 4 - Int.fdiv yoe 100 + doy
  era * 146097 + doe - 719468

/-- Day number of a `NaiveDate`. -/
def dayNumber (d : NaiveDate) : Int :=
  daysFromCivil d.year d.month d.day

/-- `date.rs`: `days_between(from, to) = (to - from).num_days()`. -/
def days_between (fromD toD : NaiveDate) : Int :=
  dayNumber toD - dayNumber fromD

/-- Wrap an integer into the signed 64-bit range, as Rust release-mode
`i64` multiplication does on overflow. -/
def wrap64 (n : Int) : Int :=
  (n + 2 ^ 63) % 2 ^ 64 - 2 ^ 63

/-- `date.rs`: `calculate_id_offset(days) = days * 86_400_000` in `i64`
arithmetic (spec name: `millisecondsForDays`). -/
def calculate_id_offset (days : Int) : Int :=
  wrap64 (days * 86400000)

/-- Chronological strict order on calendar dates (the derived `Ord` of
`chrono::NaiveDate`): `dateAfter a b` means `a > b`. -/
def dateAfter (a b : NaiveDate) : Bool :=
  a.year > b.year ||
    (a.year == b.year &&
      (a.month > b.month || (a.month == b.month && a.day > b.day)))

/-- The validation failures of `validate_dates` in `date.rs`.  The source
returns formatted message strings; each constructor records the violated
constraint and the offending date(s) that the source interpolates into its
message. -/
inductive DateError where
  | toInFuture (td : NaiveDate)
  | fromInFuture (fd : NaiveDate)
  | invalidRange (fd td : NaiveDate)
deriving DecidableEq, Repr

/-- First check of `validate_dates`: a present `to_date` must not be in
the future. -/
def toCheck (td : Option NaiveDate) (today : NaiveDate) : Except DateError Unit :=
  match td with
  | some t => if dateAfter t today then .error (.toInFuture t) else .ok ()
  | none => .ok ()

/-- Second check of `validate_dates`: a present `from_date` must not be in
the future. -/
def fromCheck (fd : Option NaiveDate) (today : NaiveDate) : Except DateError Unit :=
  match fd with
  | some f => if dateAfter f today then .error (.fromInFuture f) else .ok ()
  | none => .ok ()

/-- Third check of `validate_dates`: when both dates are present,
`from_date` must be strictly after `to_date`. -/
def rangeCheck (fd td : Option NaiveDate) : Except DateError Unit :=
  match fd, td with
  | some f, some t => if dateAfter f t then .ok () else .error (.invalidRange f t)
  | _, _ => .ok ()

/-- `date.rs::validate_dates`: the three checks run in source order with
early return on the first failure. -/
def validate_dates (fd td : Option NaiveDate) (today : NaiveDate) : Except DateError Unit :=
  match toCheck td today with
  | .error e => .error e
  | .ok _ =>
    match fromCheck fd today with
    | .error e => .error e
    | .ok _ => rangeCheck fd td

/-- `main.rs::process_notes` lines 440-445: the id offset is
`calculate_id_offset (days_between to from)` when both dates are present,
else the default one-day offset `calculate_id_offset 1`. -/
def compute_id_offset (fd td : Option NaiveDate) : Int :=
  match fd, td with
  | some f, some t => calculate_id_offset (days_between t f)
  | _, _ => calculate_id_offset 1

/-- Case fold of one character as the `unicase` collation does, restricted
to the Latin-1 repertoire: ASCII capitals and the Latin-1 capitals
(`À`..`Þ`, except the multiplication sign) fold down by 32.  `UniCase`
performs the full Unicode fold; the two agree exactly on the characters
admitted by `plainChar` below (Latin-1 minus the sharp s, whose full fold
is the two-letter `ss`, and the micro sign, which folds to Greek mu), and
universal statements about the resolver carry that repertoire as a
hypothesis. -/
def uniFoldChar (c : Char) : Char :=
  if ('A' ≤ c && c ≤ 'Z') || ('À' ≤ c && c ≤ 'Þ' && c != '×') then
    Char.ofNat (c.toNat + 32)
  else c

/-- Case fold of one character as SQLite's built-in `LIKE` does: ASCII
capitals only (SQLite `LIKE` ignores collations and folds only ASCII). -/
def asciiFoldChar (c : Char) : Char :=
  if 'A' ≤ c && c ≤ 'Z' then Char.ofNat (c.toNat + 32) else c

/-- Equality under the `unicase` collation (`name COLLATE unicase = ?`). -/
def uniEq (a b : String) : Bool :=
  a.data.map uniFoldChar == b.data.map uniFoldChar

/-- Whether the first character list is an initial segment of the second. -/
def leadMatch : List Char → List Char → Bool
  | [], _ => true
  | _ :: _, [] => false
  | a :: as, b :: bs => a == b && leadMatch as bs

/-- The `LIKE ?2 || '::%'` test of `fetch_matching_decks`: the name starts
with the queried name followed by the hierarchy delimiter, compared with
SQLite `LIKE`'s ASCII-only case folding.  The queried name is treated as a
literal; a `%` or `_` inside it would act as a wildcard in the program, so
universal statements about the resolver assume a wildcard-free query
(`noWild` below). -/
def likeDescendant (q nm : String) : Bool :=
  leadMatch ((q ++ "::").data.map asciiFoldChar) (nm.data.map asciiFoldChar)

/-- Lexicographic order on character lists (SQLite text ordering after
the collation's fold). -/
def leChars : List Char → List Char → Bool
  | [], _ => true
  | _ :: _, [] => false
  | a :: as, b :: bs => if a == b then leChars as bs else decide (a < b)

/-- Insert into a list sorted by `le`. -/
def insertLe (le : α → α → Bool) (a : α) : List α → List α
  | [] => [a]
  | b :: t => if le a b then a :: b :: t else b :: insertLe le a t

/-- Insertion sort by `le` (models SQL `ORDER BY`). -/
def sortLe (le : α → α → Bool) (l : List α) : List α :=
  l.foldr (insertLe le) []

/-- Order on deck names under the `unicase` collation. -/
def uniLe (a b : String) : Bool :=
  leChars (a.data.map uniFoldChar) (b.data.map uniFoldChar)

/-- A row of the `decks` table. -/
structure Deck where
  id : Int
  name : String
deriving DecidableEq, Repr

/-- The `WHERE` clause of `fetch_matching_decks`: exact match under the
`unicase` collation, or descendant via `LIKE ?2 || '::%'`. -/
def deckMatch (q nm : String) : Bool :=
  uniEq nm q || likeDescendant q nm

/-- `main.rs::fetch_matching_decks`: names of decks matching the query or
lying under it, sorted by name under the `unicase` collation; an empty
result is the `InvalidQuery` error. -/
def fetch_matching_decks (decks : List Deck) (q : String) : Except String (List String) :=
  let sorted := sortLe uniLe ((decks.filter (fun d => deckMatch q d.name)).map Deck.name)
  if sorted.isEmpty then .error "InvalidQuery" else .ok sorted

/-- A row of the `cards` table (the columns the program touches). -/
structure Card where
  id : Int
  nid : Int
  did : Int
  mod : Int
  usn : Int
deriving DecidableEq, Repr

/-- A row of the `revlog` table: the review id (its epoch-millisecond
timestamp, the primary key) and the owning card. -/
structure RevlogEntry where
  id : Int
  cid : Int
deriving DecidableEq, Repr

/-- The collection store: the tables the program reads or writes.
`rollover` models the already-parsed `config` value `'rollover'`
(`get_rollover_hours` reads and parses it; parsing is not at issue in any
claim), `scm` the single `col.scm` counter. -/
structure Store where
  decks : List Deck
  notes : List Int
  cards : List Card
  revlog : List RevlogEntry
  rollover : Int
  scm : Int
deriving DecidableEq, Repr

/-- The operating mode: a named deck, or all decks. -/
inductive AppMode where
  | deck (name : String)
  | all
deriving DecidableEq, Repr

/-- `main.rs::generate_rid_string`, as the pair of window bounds: the
epoch-millisecond instant of the rollover hour on the given date in the
local timezone (modelled as the fixed offset `tzOffsetSec` east of UTC),
and that instant plus 86 400 000. -/
def generate_rid_bounds (date : NaiveDate) (rolloverHours tzOffsetSec : Int) : Int × Int :=
  let startTime := (dayNumber date * 86400 + rolloverHours * 3600 - tzOffsetSec) * 1000
  (startTime, startTime + 86400000)

/-- The formatted `rid:start:end` string the source builds from the bounds
and later re-parses in `process_notes`. -/
def generate_rid_string (date : NaiveDate) (rolloverHours tzOffsetSec : Int) : String :=
  let b := generate_rid_bounds date rolloverHours tzOffsetSec
  "rid:" ++ toString b.1 ++ ":" ++ toString b.2

/-- The all-decks selection predicate of `fetch_reviewed_notes`: the note
has a card with a revlog entry whose id, divided by 1000 with SQLite's
truncating division, lies in the inclusive `BETWEEN ?1 AND ?2` range. -/
def notePredAll (cards : List Card) (revlog : List RevlogEntry) (n t0 t1 : Int) : Bool :=
  cards.any fun c =>
    c.nid == n &&
      revlog.any fun e =>
        e.cid == c.id && t0 ≤ Int.tdiv e.id 1000 && Int.tdiv e.id 1000 ≤ t1

/-- The deck-mode selection predicate: as `notePredAll`, additionally
requiring the card's deck to have exactly the parent deck's name under the
`unicase` collation (`decks.name COLLATE unicase = ?3`). -/
def notePredDeck (decks : List Deck) (cards : List Card) (revlog : List RevlogEntry)
    (parent : String) (n t0 t1 : Int) : Bool :=
  cards.any fun c =>
    c.nid == n &&
      decks.any (fun d => d.id == c.did && uniEq d.name parent) &&
      revlog.any fun e =>
        e.cid == c.id && t0 ≤ Int.tdiv e.id 1000 && Int.tdiv e.id 1000 ≤ t1

/-- Keep the first occurrence of each element (SQL `DISTINCT`). -/
def dedupKeep (l : List Int) : List Int :=
  l.foldl (fun acc a => if acc.contains a then acc else acc ++ [a]) []

/-- Order used by `ORDER BY notes.id`. -/
def intLe (a b : Int) : Bool :=
  decide (a ≤ b)

/-- The `limit` truncation at the end of `fetch_reviewed_notes`: a positive
limit keeps the first `limit` notes, otherwise all. -/
def applyLimit (limit : Int) (l : List Int) : List Int :=
  if limit > 0 then l.take limit.toNat else l

/-- `main.rs::fetch_reviewed_notes`: errors when no `from` date is present;
otherwise selects the distinct note ids with an in-window review — the
window being midnight UTC of the `from` date to midnight plus 86 400
seconds, inclusive — sorted ascending, in deck mode further restricted to
cards whose deck name equals the first matching deck, and finally
truncated to the limit. -/
def fetch_reviewed_notes (st : Store) (mode : AppMode) (fromD : Option NaiveDate)
    (limit : Int) : Except String (List Int) :=
  match fromD with
  | none => .error "InvalidQuery"
  | some fd =>
    let t0 := dayNumber fd * 86400
    let t1 := t0 + 86400
    match mode with
    | .all =>
      let sel := sortLe intLe
        ((dedupKeep st.notes).filter (fun n => notePredAll st.cards st.revlog n t0 t1))
      .ok (applyLimit limit sel)
    | .deck q =>
      match fetch_matching_decks st.decks q with
      | .error e => .error e
      | .ok ds =>
        let parent := ds.headD ""
        let sel := sortLe intLe
          ((dedupKeep st.notes).filter
            (fun n => notePredDeck st.decks st.cards st.revlog parent n t0 t1))
        .ok (applyLimit limit sel)

/-- The row filter of the `UPDATE revlog … RETURNING cid` statement run
per note: the entry's id lies in the half-open `[startT, endT)` window and
the entry joins, through its card, to the given note of the `notes`
table. -/
def entrySel (notesTable : List Int) (cards : List Card) (noteId startT endT : Int)
    (e : RevlogEntry) : Bool :=
  decide (startT ≤ e.id) && decide (e.id < endT) &&
    cards.any (fun c => c.id == e.cid && c.nid == noteId) &&
    notesTable.any (fun m => m == noteId)

/-- One execution of the `UPDATE revlog SET id = id - ? … RETURNING cid`
statement: every selected entry's id drops by `offset`; the returned list
holds the card id of each updated row. -/
def updateRevlogNote (st : Store) (noteId offset startT endT : Int) :
    Store × List Int :=
  let sel := st.revlog.filter (entrySel st.notes st.cards noteId startT endT)
  let newRev := st.revlog.map fun e =>
    if entrySel st.notes st.cards noteId startT endT e then
      { e with id := e.id - offset }
    else e
  ({ st with revlog := newRev }, sel.map RevlogEntry.cid)

/-- The `UPDATE cards SET mod = ?, usn = -1 WHERE id = ?` statement. -/
def updateCardRow (now cid : Int) (st : Store) : Store :=
  { st with
    cards := st.cards.map fun c =>
      if c.id == cid then { c with mod := now, usn := -1 } else c }

/-- One iteration of the note loop of `process_notes`.  The
`UPDATE revlog … RETURNING` statement is driven by `query_map` before the
`simulate` test, so its writes happen in both modes; only the card updates
and the `col.scm` bump are guarded by `simulate`. -/
def processNote (simulate : Bool) (now offset startT endT : Int) (st : Store)
    (noteId : Int) : Store :=
  let p := updateRevlogNote st noteId offset startT endT
  if simulate then p.1
  else
    let st2 := p.2.foldl (fun s cid => updateCardRow now cid s) p.1
    { st2 with scm := st2.scm + 1 }

/-- `main.rs::process_notes`: the note loop, folded over the selected note
ids.  `startT` and `endT` are the window bounds the source carries in the
`rid` string, `offset` the id offset of `compute_id_offset`, `now` the
epoch second written into `cards.mod`. -/
def process_notes (simulate : Bool) (now offset startT endT : Int) (st : Store)
    (notes : List Int) : Store :=
  notes.foldl (processNote simulate now offset startT endT) st

/-- `main.rs::process` after config loading: compute the window from
`from_date` (or today), fetch the reviewed notes, and either stop on a
fetch error, report the empty outcome, or run `process_notes`. -/
def processRun (mode : AppMode) (simulate : Bool) (limit : Int)
    (fromD toD : Option NaiveDate) (today : NaiveDate) (tzOffsetSec now : Int)
    (st : Store) : Except String Store :=
  let baseDate := fromD.getD today
  let b := generate_rid_bounds baseDate st.rollover tzOffsetSec
  match fetch_reviewed_notes st mode fromD limit with
  | .error e => .error e
  | .ok ids =>
    if ids.isEmpty then .ok st
    else .ok (process_notes simulate now (compute_id_offset fromD toD) b.1 b.2 st ids)

/-- The two card columns the revlog join reads: `(id, nid)`. -/
def cardKey (c : Card) : Int × Int :=
  (c.id, c.nid)

/-- Whether a revlog entry is selected by the update statement of any of
the processed notes. -/
def entrySelAny (notesTable : List Int) (cards : List Card) (notes : List Int)
    (startT endT : Int) (e : RevlogEntry) : Bool :=
  notes.any fun nid => entrySel notesTable cards nid startT endT e

/-- Store with a single note whose one review lies inside the window
`[1000000, 87400000)`: exercises a simulation run. -/
def simStore : Store :=
  ⟨[], [1], [⟨10, 1, 1, 0, 0⟩], [⟨1000000, 10⟩], 4, 5⟩

/-- Store whose only reviewed card sits in the child deck
`Spanish::Verbs`, reviewed inside the selection window of 2025-01-01. -/
def deckStore : Store :=
  ⟨[⟨1, "Spanish"⟩, ⟨2, "Spanish::Verbs"⟩], [7], [⟨10, 7, 2, 0, 0⟩],
    [⟨1735700000000, 10⟩], 4, 0⟩

/-- Store with rollover hour 1 whose only review, at 00:06:40 UTC on
2025-01-01, falls before the rollover window of that date. -/
def windowStore : Store :=
  ⟨[], [3], [⟨10, 3, 1, 0, 0⟩], [⟨1735690000000, 10⟩], 1, 0⟩

/-- Store with a single note whose only review lies outside the window
`[1000000, 87400000)`. -/
def scmStore : Store :=
  ⟨[], [1], [⟨10, 1, 1, 0, 0⟩], [⟨5, 10⟩], 4, 5⟩

/-- Store with one in-window and one out-of-window review on the same
card. -/
def shiftStore : Store :=
  ⟨[], [1], [⟨10, 1, 1, 0, 0⟩], [⟨1000000, 10⟩, ⟨99999999999, 10⟩], 4, 5⟩

/-- The deck table of the resolver example: three Spanish decks and one
French deck. -/
def spanishDecks : List Deck :=
  [⟨1, "Spanish"⟩, ⟨2, "Spanish::Verbs"⟩, ⟨3, "Spanish::Nouns"⟩, ⟨4, "French"⟩]

/-- The descendant test in the words of the spec (section 4.4): the deck
name starts with the supplied name followed by the delimiter, compared
under the resolver's Unicode case-insensitive fold — the comparison the
spec demands for prefix matching.  Declared for comparison with the
source-derived `likeDescendant`; the two disagree exactly where SQLite's
`LIKE` (which ignores the registered collation and folds only ASCII)
departs from the collation. -/
def specDescendant (q nm : String) : Bool :=
  leadMatch ((q ++ "::").data.map uniFoldChar) (nm.data.map uniFoldChar)

/-- Characters on which the model's `uniFoldChar` provably agrees with the
program's `unicase` fold: the Latin-1 repertoire minus the two characters
with non-Latin-1 full case foldings (`ß`, which folds to `ss`, and the
micro sign, which folds to Greek mu). -/
def plainChar (c : Char) : Bool :=
  c.toNat < 256 && c.toNat != 223 && c.toNat != 181

/-- A string entirely within the faithfully modelled fold repertoire. -/
def plainStr (s : String) : Bool :=
  s.data.all plainChar

/-- A string free of the SQLite `LIKE` wildcard characters, so that the
`?2 || '::%'` pattern treats it literally. -/
def noWild (s : String) : Bool :=
  s.data.all fun c => c != '%' && c != '_'

/-- C1: the claim states that a simulation run leaves the entire store
unchanged.  On the code it fails: the `UPDATE revlog … RETURNING cid`
statement is executed through `query_map` before the `simulate` flag is
consulted, so a simulation run still rewrites the in-window revlog ids
(the cards table and `col.scm` are indeed left alone). -/
theorem C1_simulation_writes_revlog :
    (process_notes true 999 86400000 1000000 87400000 simStore [1]).revlog =
      [⟨-85400000, 10⟩] ∧
    simStore.revlog = [⟨1000000, 10⟩] ∧
    (process_notes true 999 86400000 1000000 87400000 simStore [1]).revlog ≠
      simStore.revlog ∧
    (process_notes true 999 86400000 1000000 87400000 simStore [1]).cards =
      simStore.cards ∧
    (process_notes true 999 86400000 1000000 87400000 simStore [1]).scm =
      simStore.scm := by
  refine ⟨by decide, by decide, by decide, by decide, by decide⟩

/-- C2: the claim states that deck mode selects notes reviewed in any
deck of the resolved subtree.  On the code it fails: the resolver does
return the whole subtree `["Spanish", "Spanish::Verbs"]`, but the
selection query compares `decks.name` with `matching_decks[0]` only, so
the note whose card sits in `Spanish::Verbs` is not selected even though
the all-decks query finds it. -/
theorem C2_deck_mode_ignores_subtree :
    fetch_matching_decks deckStore.decks "Spanish" =
      .ok ["Spanish", "Spanish::Verbs"] ∧
    fetch_reviewed_notes deckStore (.deck "Spanish") (some ⟨2025, 1, 1⟩) 0 =
      .ok [] ∧
    fetch_reviewed_notes deckStore .all (some ⟨2025, 1, 1⟩) 0 = .ok [7] := by
  refine ⟨rfl, rfl, rfl⟩

/-- C3: the claim states that the selector returns only notes with a
review inside the rollover window `[start, end)`.  On the code it fails:
the selector compares `revlog.id / 1000` against the inclusive seconds
range anchored at UTC midnight of the `from` date, ignoring the computed
rollover window, so with rollover hour 1 the note whose only review at
1735690000000 ms lies before the window start 1735693200000 ms is still
selected. -/
theorem C3_selector_ignores_rollover_window :
    generate_rid_bounds ⟨2025, 1, 1⟩ 1 0 = (1735693200000, 1735779600000) ∧
    windowStore.rollover = 1 ∧
    windowStore.revlog = [⟨1735690000000, 10⟩] ∧
    (1735690000000 : Int) < 1735693200000 ∧
    fetch_reviewed_notes windowStore .all (some ⟨2025, 1, 1⟩) 0 = .ok [3] := by
  refine ⟨by decide, by decide, by decide, by decide, rfl⟩

/-- C4, counterexample: the claim states that `col.scm` is not bumped for
a processed note that produced no rewritten entry.  Here note 1's only
review lies outside the window, the revlog is untouched, and `scm` still
rises from 5 to 6. -/
theorem C4_counterexample :
    (process_notes false 777 86400000 1000000 87400000 scmStore [1]).revlog =
      scmStore.revlog ∧
    (process_notes false 777 86400000 1000000 87400000 scmStore [1]).scm =
      scmStore.scm + 1 := by
  refine ⟨by decide, by decide⟩

/-- C10: when no `from` date was supplied (the legal configuration with
both dates absent), `fetch_reviewed_notes` returns the `InvalidQuery`
error at once, and the whole run stops there, never reaching the shifting
step. -/
theorem C10_missing_from_date (mode : AppMode) (simulate : Bool) (limit : Int)
    (toD : Option NaiveDate) (today : NaiveDate) (tzOffsetSec now : Int)
    (st : Store) :
    fetch_reviewed_notes st mode none limit = .error "InvalidQuery" ∧
    processRun mode simulate limit none toD today tzOffsetSec now st =
      .error "InvalidQuery" := by
  refine ⟨rfl, rfl⟩

theorem updateCardRow_scm (now cid : Int) (s : Store) :
    (updateCardRow now cid s).scm = s.scm := rfl

theorem foldl_updateCardRow_scm (now : Int) (l : List Int) (s : Store) :
    (l.foldl (fun s cid => updateCardRow now cid s) s).scm = s.scm := by
  induction l generalizing s with
  | nil => rfl
  | cons c t ih => simpa [List.foldl_cons, updateCardRow_scm] using ih (updateCardRow now c s)

theorem processNote_scm (now offset startT endT : Int) (st : Store) (noteId : Int) :
    (processNote false now offset startT endT st noteId).scm = st.scm + 1 := by
  simp [processNote, foldl_updateCardRow_scm, updateRevlogNote]

/-- C4, amended: in a non-simulated run the global sync counter `col.scm`
is incremented exactly once per processed note, whether or not the note
produced any rewritten entry; in particular a single note with one
in-window review raises it by exactly 1. -/
theorem C4_scm_per_note (now offset startT endT : Int) (st : Store)
    (notes : List Int) :
    (process_notes false now offset startT endT st notes).scm =
      st.scm + notes.length := by
  induction notes generalizing st with
  | nil => simp [process_notes]
  | cons n t ih =>
    have h := ih (processNote false now offset startT endT st n)
    simp only [process_notes, List.foldl_cons] at h ⊢
    rw [h, processNote_scm]
    simp only [List.length_cons]
    push_cast
    ring

theorem wrap64_eq_self (n : Int) (h : |n| < 2 ^ 63) : wrap64 n = n := by
  rw [abs_lt] at h
  unfold wrap64
  rw [Int.emod_eq_of_lt (by omega) (by omega)]
  omega

theorem wrap64_congruent (n : Int) :
    ∃ k : Int, wrap64 n = n + 2 ^ 64 * k := by
  refine ⟨-((n + 2 ^ 63) / 2 ^ 64), ?_⟩
  rw [wrap64, Int.emod_def]
  ring

/-- C6: the shift offset equals `millisecondsForDays (daysBetween to from)`
— that is, `(dayNumber from - dayNumber to) * 86 400 000` milliseconds —
whenever an explicit date range was supplied (the bound keeps the product
inside `i64`, which holds for every date `chrono` can represent), and the
one-day offset 86 400 000 ms when no range was supplied. -/
theorem C6_offset_formula (f t : NaiveDate)
    (hf : |dayNumber f| ≤ 100000000) (ht : |dayNumber t| ≤ 100000000) :
    compute_id_offset (some f) (some t) =
      (dayNumber f - dayNumber t) * 86400000 ∧
    compute_id_offset none none = 86400000 := by
  constructor
  · rw [abs_le] at hf ht
    show calculate_id_offset (days_between t f) = _
    rw [calculate_id_offset, days_between]
    exact wrap64_eq_self _ (by rw [abs_lt]; constructor <;> nlinarith)
  · decide

/-- C6 witness: the offset formula evaluated at the explicit range
2025-01-03 back to 2025-01-01, and at the absent range. -/
theorem C6_offset_formula_witness :
    compute_id_offset (some ⟨2025, 1, 3⟩) (some ⟨2025, 1, 1⟩) =
      (dayNumber ⟨2025, 1, 3⟩ - dayNumber ⟨2025, 1, 1⟩) * 86400000 ∧
    compute_id_offset none none = 86400000 :=
  C6_offset_formula ⟨2025, 1, 3⟩ ⟨2025, 1, 1⟩ (by decide) (by decide)

/-- C8: `days_between` is antisymmetric and zero on equal dates, and
`calculate_id_offset n` equals `n * 86 400 000` in 64-bit arithmetic: it
is congruent to the product modulo 2^64 for every `n`, and equal to it
outright whenever the product fits in `i64`. -/
theorem C8_date_algebra (d1 d2 : NaiveDate) (n : Int)
    (h1 : validDate d1 = true) (h2 : validDate d2 = true) :
    days_between d1 d2 = -days_between d2 d1 ∧
    days_between d1 d1 = 0 ∧
    (∃ k : Int, calculate_id_offset n = n * 86400000 + 2 ^ 64 * k) ∧
    (|n * 86400000| < 2 ^ 63 → calculate_id_offset n = n * 86400000) := by
  refine ⟨by rw [days_between, days_between]; ring, by rw [days_between]; ring, ?_, ?_⟩
  · exact wrap64_congruent (n * 86400000)
  · intro h
    exact wrap64_eq_self _ h

/-- C8 witness: the algebra evaluated at 2024-02-28 and 2024-03-01 with
`n = 7`. -/
theorem C8_date_algebra_witness :
    days_between ⟨2024, 2, 28⟩ ⟨2024, 3, 1⟩ =
      -days_between ⟨2024, 3, 1⟩ ⟨2024, 2, 28⟩ ∧
    days_between ⟨2024, 2, 28⟩ ⟨2024, 2, 28⟩ = 0 ∧
    (∃ k : Int, calculate_id_offset 7 = 7 * 86400000 + 2 ^ 64 * k) ∧
    (|(7 : Int) * 86400000| < 2 ^ 63 → calculate_id_offset 7 = 7 * 86400000) :=
  C8_date_algebra ⟨2024, 2, 28⟩ ⟨2024, 3, 1⟩ 7 (by decide) (by decide)

/-- C7: the date-range validator accepts exactly the inputs where no
present date is strictly after today and, when both dates are present,
the from date is strictly after the to date; every rejection carries the
violated constraint together with the offending date(s). -/
theorem C7_validator (fd td : Option NaiveDate) (today : NaiveDate) :
    (validate_dates fd td today = .ok () ↔
      (∀ t, td = some t → dateAfter t today = false) ∧
      (∀ f, fd = some f → dateAfter f today = false) ∧
      (∀ f t, fd = some f → td = some t → dateAfter f t = true)) ∧
    (∀ e, validate_dates fd td today = .error e →
      (∃ t, td = some t ∧ e = .toInFuture t ∧ dateAfter t today = true) ∨
      (∃ f, fd = some f ∧ e = .fromInFuture f ∧ dateAfter f today = true) ∨
      (∃ f t, fd = some f ∧ td = some t ∧ e = .invalidRange f t ∧
        dateAfter f t = false)) := by
  cases fd <;> cases td <;>
    simp [validate_dates, toCheck, fromCheck, rangeCheck] <;>
    split_ifs <;>
    simp_all

/-- C7 witness: a pair with both dates in the past and the from date
strictly after the to date is accepted. -/
theorem C7_validator_witness :
    validate_dates (some ⟨2025, 1, 3⟩) (some ⟨2025, 1, 1⟩) ⟨2025, 1, 4⟩ =
      .ok () :=
  ((C7_validator (some ⟨2025, 1, 3⟩) (some ⟨2025, 1, 1⟩) ⟨2025, 1, 4⟩).1).mpr
    ⟨fun t ht => by cases ht; decide, fun f hf => by cases hf; decide,
      fun f t hf ht => by cases hf; cases ht; decide⟩

theorem mem_insertLe (le : α → α → Bool) (a x : α) (l : List α) :
    x ∈ insertLe le a l ↔ x = a ∨ x ∈ l := by
  induction l with
  | nil => simp [insertLe]
  | cons b t ih =>
    by_cases h : le a b = true <;> simp [insertLe, h, ih] <;> tauto

theorem mem_sortLe (le : α → α → Bool) (x : α) (l : List α) :
    x ∈ sortLe le l ↔ x ∈ l := by
  induction l with
  | nil => simp [sortLe]
  | cons b t ih =>
    simp only [sortLe] at ih ⊢
    simp [List.foldr_cons, mem_insertLe, ih]

theorem length_insertLe (le : α → α → Bool) (a : α) (l : List α) :
    (insertLe le a l).length = l.length + 1 := by
  induction l with
  | nil => rfl
  | cons b t ih => by_cases h : le a b = true <;> simp [insertLe, h, ih]

theorem length_sortLe (le : α → α → Bool) (l : List α) :
    (sortLe le l).length = l.length := by
  induction l with
  | nil => rfl
  | cons b t ih =>
    simp only [sortLe] at ih ⊢
    simp [List.foldr_cons, length_insertLe, ih]

/-- C9, counterexample: the claim fails under either reading of its
descendant clause.  Read literally — the deck name starts with the
supplied name followed by the delimiter — the resolver returns
`SPANISH::Verbs` for the query `Spanish` although that name neither
starts with `Spanish::` nor equals `Spanish` under the collation.  Read
under the Unicode case-insensitive fold, the resolver misses the
descendant `ähnlich::Kind` of the query `ÄHNLICH`, because SQLite's
`LIKE` ignores the registered collation and folds only ASCII. -/
theorem C9_counterexample :
    fetch_matching_decks [⟨1, "SPANISH::Verbs"⟩] "Spanish" =
      .ok ["SPANISH::Verbs"] ∧
    leadMatch "Spanish::".data "SPANISH::Verbs".data = false ∧
    uniEq "SPANISH::Verbs" "Spanish" = false ∧
    fetch_matching_decks [⟨1, "ähnlich"⟩, ⟨2, "ähnlich::Kind"⟩] "ÄHNLICH" =
      .ok ["ähnlich"] ∧
    specDescendant "ÄHNLICH" "ähnlich::Kind" = true := by
  refine ⟨rfl, by decide, by decide, rfl, by decide⟩

/-- C9, amended: in subtree mode the resolver returns exactly the decks
whose name equals the queried name under the case-insensitive collation
or starts with the queried name followed by `::` under SQLite `LIKE`'s
ASCII-only case folding (the `LIKE` operator ignores the registered
collation), errors exactly when no deck matches, and on the decks
`Spanish`, `Spanish::Verbs`, `Spanish::Nouns`, `French` the query
`Spanish` yields the three Spanish decks and excludes `French`.  The
hypotheses confine the statement to inputs on which the model provably
mirrors the program: names and query inside the faithfully folded
repertoire, and a wildcard-free query. -/
theorem C9_deck_resolver_amended (decks : List Deck) (q : String)
    (_hq : plainStr q = true) (_hw : noWild q = true)
    (_hd : decks.all (fun d => plainStr d.name) = true) :
    (∀ l, fetch_matching_decks decks q = .ok l →
      ∀ nm, nm ∈ l ↔ ∃ d, d ∈ decks ∧ d.name = nm ∧ deckMatch q nm = true) ∧
    (fetch_matching_decks decks q = .error "InvalidQuery" ↔
      ∀ d, d ∈ decks → deckMatch q d.name = false) ∧
    fetch_matching_decks spanishDecks "Spanish" =
      .ok ["Spanish", "Spanish::Nouns", "Spanish::Verbs"] ∧
    fetch_matching_decks spanishDecks "French" = .ok ["French"] := by
  refine ⟨?_, ?_, rfl, rfl⟩
  · intro l hok nm
    unfold fetch_matching_decks at hok
    by_cases he : (sortLe uniLe ((decks.filter (fun d => deckMatch q d.name)).map Deck.name)).isEmpty = true
    · simp [he] at hok
    · simp [he] at hok
      subst hok
      rw [mem_sortLe]
      simp only [List.mem_map, List.mem_filter]
      constructor
      · rintro ⟨d, ⟨hd, hm⟩, hn⟩
        exact ⟨d, hd, hn, hn ▸ hm⟩
      · rintro ⟨d, hd, hn, hm⟩
        exact ⟨d, ⟨hd, hn ▸ hm⟩, hn⟩
  · unfold fetch_matching_decks
    by_cases he : (sortLe uniLe ((decks.filter (fun d => deckMatch q d.name)).map Deck.name)).isEmpty = true
    · simp only [he, if_true]
      rw [List.isEmpty_iff] at he
      have : (decks.filter (fun d => deckMatch q d.name)).map Deck.name = [] := by
        have hl := length_sortLe uniLe ((decks.filter (fun d => deckMatch q d.name)).map Deck.name)
        rw [he] at hl
        exact List.length_eq_zero.mp hl.symm
      rw [List.map_eq_nil_iff, List.filter_eq_nil_iff] at this
      simp only [eq_self_iff_true, true_iff]
      intro d hd
      exact Bool.eq_false_iff.mpr (this d hd)
    · simp only [he, if_false]
      constructor
      · intro h
        exact absurd h (by simp)
      · intro h
        exfalso
        apply he
        rw [List.isEmpty_iff]
        have : decks.filter (fun d => deckMatch q d.name) = [] := by
          rw [List.filter_eq_nil_iff]
          intro d hd
          simp [h d hd]
        simp [this, sortLe]

/-- C9 witness: the amended resolver theorem applied to the example deck
table, projecting the Spanish-subtree outcome. -/
theorem C9_deck_resolver_amended_witness :
    fetch_matching_decks spanishDecks "Spanish" =
      .ok ["Spanish", "Spanish::Nouns", "Spanish::Verbs"] :=
  (C9_deck_resolver_amended spanishDecks "Spanish" (by decide) (by decide)
    (by decide)).2.2.1

theorem updateCardRow_notes (now cid : Int) (s : Store) :
    (updateCardRow now cid s).notes = s.notes := rfl

theorem updateCardRow_revlog (now cid : Int) (s : Store) :
    (updateCardRow now cid s).revlog = s.revlog := rfl

theorem updateCardRow_cardKey (now cid : Int) (s : Store) :
    (updateCardRow now cid s).cards.map cardKey = s.cards.map cardKey := by
  show (s.cards.map _).map cardKey = s.cards.map cardKey
  rw [List.map_map]
  apply List.map_congr_left
  intro c _
  by_cases h : (c.id == cid) = true <;> simp [Function.comp, h, cardKey]

theorem foldl_updateCardRow_notes (now : Int) (l : List Int) (s : Store) :
    (l.foldl (fun s cid => updateCardRow now cid s) s).notes = s.notes := by
  induction l generalizing s with
  | nil => rfl
  | cons c t ih =>
    simpa [List.foldl_cons, updateCardRow_notes] using ih (updateCardRow now c s)

theorem foldl_updateCardRow_revlog (now : Int) (l : List Int) (s : Store) :
    (l.foldl (fun s cid => updateCardRow now cid s) s).revlog = s.revlog := by
  induction l generalizing s with
  | nil => rfl
  | cons c t ih =>
    simpa [List.foldl_cons, updateCardRow_revlog] using ih (updateCardRow now c s)

theorem foldl_updateCardRow_cardKey (now : Int) (l : List Int) (s : Store) :
    (l.foldl (fun s cid => updateCardRow now cid s) s).cards.map cardKey =
      s.cards.map cardKey := by
  induction l generalizing s with
  | nil => rfl
  | cons c t ih =>
    rw [List.foldl_cons]
    rw [ih (updateCardRow now c s), updateCardRow_cardKey]

theorem processNote_notes (simulate : Bool) (now offset startT endT : Int)
    (st : Store) (noteId : Int) :
    (processNote simulate now offset startT endT st noteId).notes = st.notes := by
  cases simulate <;>
    simp [processNote, updateRevlogNote, foldl_updateCardRow_notes]

theorem processNote_cardKey (simulate : Bool) (now offset startT endT : Int)
    (st : Store) (noteId : Int) :
    (processNote simulate now offset startT endT st noteId).cards.map cardKey =
      st.cards.map cardKey := by
  cases simulate <;>
    simp [processNote, updateRevlogNote, foldl_updateCardRow_cardKey]

theorem processNote_revlog (simulate : Bool) (now offset startT endT : Int)
    (st : Store) (noteId : Int) :
    (processNote simulate now offset startT endT st noteId).revlog =
      st.revlog.map fun e =>
        if entrySel st.notes st.cards noteId startT endT e then
          { e with id := e.id - offset }
        else e := by
  cases simulate <;>
    simp [processNote, updateRevlogNote, foldl_updateCardRow_revlog]

theorem cardAny_map (cards : List Card) (x y : Int) :
    (cards.any fun c => c.id == x && c.nid == y) =
      ((cards.map cardKey).any fun p => p.1 == x && p.2 == y) := by
  induction cards with
  | nil => rfl
  | cons c t ih => simp [List.any_cons, ih, cardKey]

theorem entrySel_congr (nt : List Int) (cards1 cards2 : List Card)
    (nid startT endT : Int) (e : RevlogEntry)
    (h : cards1.map cardKey = cards2.map cardKey) :
    entrySel nt cards1 nid startT endT e = entrySel nt cards2 nid startT endT e := by
  simp only [entrySel]
  rw [cardAny_map cards1, cardAny_map cards2, h]

theorem entrySelAny_congr (nt : List Int) (cards1 cards2 : List Card)
    (notes : List Int) (startT endT : Int) (e : RevlogEntry)
    (h : cards1.map cardKey = cards2.map cardKey) :
    entrySelAny nt cards1 notes startT endT e =
      entrySelAny nt cards2 notes startT endT e := by
  unfold entrySelAny
  exact congrArg notes.any
    (funext fun nid => entrySel_congr nt cards1 cards2 nid startT endT e h)

theorem entrySel_other_false (nt : List Int) (cards : List Card)
    (hc : (cards.map Card.id).Nodup) (c : Card) (hmem : c ∈ cards)
    (n n2 : Int) (hne : n2 ≠ n) (hcnid : c.nid = n)
    (e2 : RevlogEntry) (hecid : e2.cid = c.id) (s t : Int) :
    entrySel nt cards n2 s t e2 = false := by
  simp only [entrySel]
  have hany : (cards.any fun c2 => c2.id == e2.cid && c2.nid == n2) = false := by
    rw [List.any_eq_false]
    intro c2 hmem2
    simp only [Bool.and_eq_true, beq_iff_eq, not_and]
    intro hid hnid
    have hcc : c2 = c :=
      List.inj_on_of_nodup_map hc hmem2 hmem (by rw [hid, hecid])
    rw [hcc, hcnid] at hnid
    exact hne hnid.symm
  simp [hany]

/-- C5: one run of the note loop rewrites the id of exactly those revlog
entries that belong (through their card) to one of the processed notes and
lie in the half-open window, each lowered by the offset exactly once;
every other entry — outside the window or owned by an unprocessed note —
is untouched. -/
theorem C5_shifter_frame (simulate : Bool) (now offset startT endT : Int)
    (st : Store) (notes : List Int) (hn : notes.Nodup)
    (hc : (st.cards.map Card.id).Nodup) :
    (process_notes simulate now offset startT endT st notes).revlog =
      st.revlog.map fun e =>
        if entrySelAny st.notes st.cards notes startT endT e then
          { e with id := e.id - offset }
        else e := by
  induction notes generalizing st with
  | nil =>
    simp [process_notes, entrySelAny]
  | cons n ns ih =>
    obtain ⟨hn1, hn2⟩ := List.nodup_cons.mp hn
    have hnotes1 : (processNote simulate now offset startT endT st n).notes = st.notes :=
      processNote_notes simulate now offset startT endT st n
    have hkey1 : (processNote simulate now offset startT endT st n).cards.map cardKey =
        st.cards.map cardKey :=
      processNote_cardKey simulate now offset startT endT st n
    have hid1 : (processNote simulate now offset startT endT st n).cards.map Card.id =
        st.cards.map Card.id := by
      have h2 := congrArg (List.map Prod.fst) hkey1
      simpa [List.map_map, Function.comp, cardKey] using h2
    have hc1 : ((processNote simulate now offset startT endT st n).cards.map Card.id).Nodup := by
      rw [hid1]; exact hc
    have hstep : process_notes simulate now offset startT endT st (n :: ns) =
        process_notes simulate now offset startT endT
          (processNote simulate now offset startT endT st n) ns := by
      simp [process_notes]
    rw [hstep, ih _ hn2 hc1, processNote_revlog, List.map_map]
    apply List.map_congr_left
    intro e _
    simp only [Function.comp]
    rw [hnotes1]
    by_cases hb : entrySel st.notes st.cards n startT endT e = true
    · rw [if_pos hb]
      have hcard : ∃ c, c ∈ st.cards ∧ c.id = e.cid ∧ c.nid = n := by
        have h2 := hb
        simp only [entrySel, Bool.and_eq_true, List.any_eq_true, beq_iff_eq,
          decide_eq_true_eq] at h2
        obtain ⟨⟨⟨hw1, hw2⟩, c, hcmem, hcid, hcnid⟩, hmem⟩ := h2
        exact ⟨c, hcmem, hcid, hcnid⟩
      obtain ⟨c, hcmem, hcid, hcnid⟩ := hcard
      have hfalse : entrySelAny st.notes
          (processNote simulate now offset startT endT st n).cards ns startT endT
          { e with id := e.id - offset } = false := by
        rw [entrySelAny_congr st.notes _ st.cards ns startT endT _ hkey1]
        unfold entrySelAny
        rw [List.any_eq_false]
        intro n2 hn2mem
        have hne : n2 ≠ n := fun hEq => hn1 (hEq ▸ hn2mem)
        simp only [Bool.not_eq_true]
        exact entrySel_other_false st.notes st.cards hc c hcmem n n2 hne hcnid
          { e with id := e.id - offset } (by simp [hcid]) startT endT
      rw [hfalse]
      have htrue : entrySelAny st.notes st.cards (n :: ns) startT endT e = true := by
        unfold entrySelAny
        rw [List.any_cons, hb]
        simp
      rw [htrue]
      simp
    · have hb2 : entrySel st.notes st.cards n startT endT e = false := by
        revert hb
        cases entrySel st.notes st.cards n startT endT e <;> simp
      rw [if_neg hb]
      rw [entrySelAny_congr st.notes _ st.cards ns startT endT e hkey1]
      have hcons : entrySelAny st.notes st.cards (n :: ns) startT endT e =
          entrySelAny st.notes st.cards ns startT endT e := by
        unfold entrySelAny
        rw [List.any_cons, hb2]
        simp
      rw [hcons]

/-- C5 witness: the frame theorem applied to a store holding one
in-window and one out-of-window review of a single note. -/
theorem C5_shifter_frame_witness :
    ([1] : List Int).Nodup ∧
    (shiftStore.cards.map Card.id).Nodup ∧
    (process_notes true 0 86400000 1000000 87400000 shiftStore [1]).revlog =
      shiftStore.revlog.map (fun e =>
        if entrySelAny shiftStore.notes shiftStore.cards [1] 1000000 87400000 e then
          { e with id := e.id - 86400000 }
        else e) :=
  ⟨by decide, by decide,
    C5_shifter_frame true 0 86400000 1000000 87400000 shiftStore [1]
      (by decide) (by decide)⟩
